import Mathlib

/-!
Verification of the conceptual model-tracking and versioned-dataset workflow
exercised by the MLflow lab notebook
(`Scalable-Machine-Learning-with-Apache-Spark-TEST/Labs/ML 05L - MLflow Lab.py`).

The notebook is glue code over three external collaborators — a versioned
tabular store (Delta), an experiment run tracker and a model registry
(MLflow) — whose implementations are not part of this repository.  Following
the repository's design specification, those collaborators are modelled here
as a small standalone library: a versioned-store client, a run-tracker client
and a registry client, with explicit state passing and `Except` for fallible
operations.  The theorems settle the specification's stated invariants and
testable properties against this model.
-/

/-- Decidable equality of `Except` results, so that concrete runs of the
modelled clients can be checked by `decide`. -/
instance exceptDecEq {ε α : Type} [DecidableEq ε] [DecidableEq α] :
    DecidableEq (Except ε α)
  | Except.error a, Except.error b =>
    if h : a = b then Decidable.isTrue (by rw [h])
    else Decidable.isFalse (fun hc => h (by cases hc; rfl))
  | Except.error _, Except.ok _ => Decidable.isFalse (fun hc => Except.noConfusion hc)
  | Except.ok _, Except.error _ => Decidable.isFalse (fun hc => Except.noConfusion hc)
  | Except.ok a, Except.ok b =>
    if h : a = b then Decidable.isTrue (by rw [h])
    else Decidable.isFalse (fun hc => h (by cases hc; rfl))

namespace MLLab

/-! ## Versioned tabular store (Delta tables) -/

/-- Modelled from the spec: the store's row format is opaque to the notebook;
a row is an association of column name to cell value, an absent binding being
a null cell (as produced by additive schema evolution). -/
abbrev Row := List (String × String)

/-- Modelled from the spec: the cell a row holds for a column, `Option.none`
standing for null. -/
def getCell (r : Row) (c : String) : Option String :=
  (r.find? (fun p => p.1 == c)).map (·.2)

/-- Modelled from the spec: a dataset is a schema (ordered column names)
together with its rows. -/
structure Dataset where
  schema : List String
  rows : List Row
  deriving DecidableEq

/-- Modelled from the spec: a snapshot is an immutable, numbered record of a
table's contents at one point in time, together with the operation that
produced it (the `history` change log exposes version and operation). -/
structure Snapshot where
  version : Nat
  operatio : String
  data : Dataset
  deriving DecidableEq

/-- Modelled from the spec: a versioned table is an ordered, append-only
sequence of immutable snapshots; snapshot `k` sits at position `k`. -/
structure VersionedTable where
  snapshots : List Snapshot
  deriving DecidableEq

/-- Modelled from the spec: write modes exercised by the notebook
(`mode=overwrite` and `mode=append` with `mergeSchema`). -/
inductive Mode where
  | overwrite
  | append
  deriving DecidableEq

/-- Name of the operation recorded in the history log for a write mode. -/
def opName : Mode → String
  | Mode.overwrite => "WRITE-OVERWRITE"
  | Mode.append => "WRITE-APPEND"

/-- Modelled from the spec: errors of the versioned-store client. -/
inductive StoreErr where
  | VersionNotFound
  | SchemaMismatch
  deriving DecidableEq

/-- Modelled from the spec: additive schema evolution — new columns are
appended after the existing ones. -/
def mergeSchema (s₁ s₂ : List String) : List String :=
  s₁ ++ s₂.filter (fun c => ¬ s₁.contains c)

/-- The current (latest) logical content of a table, if any. -/
def curData (t : VersionedTable) : Option Dataset :=
  (t.snapshots.getLast?).map (·.data)

/-- Modelled from the spec: the logical content the new snapshot will hold.
Overwrite replaces the rows; append keeps them and adds the new ones.  Schema
evolution is permitted only when explicitly allowed, otherwise the write
fails with `SchemaMismatch`. -/
def writeContent (t : VersionedTable) (data : Dataset) (mode : Mode)
    (allowed : Bool) : Except StoreErr Dataset :=
  match curData t with
  | Option.none => Except.ok data
  | Option.some cur =>
    if data.schema = cur.schema then
      match mode with
      | Mode.overwrite => Except.ok data
      | Mode.append => Except.ok ⟨cur.schema, cur.rows ++ data.rows⟩
    else if allowed then
      match mode with
      | Mode.overwrite => Except.ok ⟨mergeSchema cur.schema data.schema, data.rows⟩
      | Mode.append =>
          Except.ok ⟨mergeSchema cur.schema data.schema, cur.rows ++ data.rows⟩
    else Except.error StoreErr.SchemaMismatch

/-- Modelled from the spec: `write(table_path, data, mode,
schema_evolution_allowed)` — the Delta write invoked by the notebook is
external; a write always appends a new numbered snapshot, never altering
earlier ones. -/
def write (t : VersionedTable) (data : Dataset) (mode : Mode)
    (allowed : Bool) : Except StoreErr VersionedTable :=
  match writeContent t data mode allowed with
  | Except.error e => Except.error e
  | Except.ok content =>
      Except.ok ⟨t.snapshots ++ [⟨t.snapshots.length, opName mode, content⟩]⟩

/-- Modelled from the spec: `read(table_path, version)` — `Option.none` means
latest; a version beyond the known history fails with `VersionNotFound`. -/
def read (t : VersionedTable) (version : Option Nat) : Except StoreErr Dataset :=
  match version with
  | Option.none =>
    match t.snapshots.getLast? with
    | Option.none => Except.error StoreErr.VersionNotFound
    | Option.some s => Except.ok s.data
  | Option.some k =>
    match t.snapshots[k]? with
    | Option.none => Except.error StoreErr.VersionNotFound
    | Option.some s => Except.ok s.data

/-- Modelled from the spec: `history(table_path)` returns the ordered change
log of snapshots. -/
def history (t : VersionedTable) : List Snapshot :=
  t.snapshots

/-- A write request, as issued by the notebook's save cells. -/
structure WriteReq where
  data : Dataset
  mode : Mode
  allowed : Bool

/-- Apply one write to a table; a failed write leaves the table unchanged. -/
def applyWrite (t : VersionedTable) (w : WriteReq) : VersionedTable :=
  match write t w.data w.mode w.allowed with
  | Except.ok t' => t'
  | Except.error _ => t

/-- Apply a sequence of writes in order. -/
def applyWrites (t : VersionedTable) : List WriteReq → VersionedTable
  | [] => t
  | w :: ws => applyWrites (applyWrite t w) ws

/-! ### Store lemmas -/

theorem write_ok_snapshots (t t' : VersionedTable) (data : Dataset) (mode : Mode)
    (allowed : Bool) (h : write t data mode allowed = Except.ok t') :
    ∃ c, writeContent t data mode allowed = Except.ok c ∧
      t'.snapshots = t.snapshots ++ [⟨t.snapshots.length, opName mode, c⟩] := by
  unfold write at h
  cases hc : writeContent t data mode allowed with
  | error e => rw [hc] at h; cases h
  | ok c =>
    rw [hc] at h
    cases h
    exact ⟨c, rfl, rfl⟩

theorem read_append (l : List Snapshot) (s : Snapshot) (k : Nat) (ds : Dataset)
    (h : read ⟨l⟩ (Option.some k) = Except.ok ds) :
    read ⟨l ++ [s]⟩ (Option.some k) = Except.ok ds := by
  simp only [read] at h ⊢
  cases hl : l[k]? with
  | none => rw [hl] at h; cases h
  | some snap =>
    rw [hl] at h
    have hk : k < l.length := (List.getElem?_eq_some.mp hl).1
    rw [List.getElem?_append, if_pos hk, hl]
    exact h

theorem applyWrite_read (t : VersionedTable) (w : WriteReq) (k : Nat) (ds : Dataset)
    (h : read t (Option.some k) = Except.ok ds) :
    read (applyWrite t w) (Option.some k) = Except.ok ds := by
  unfold applyWrite
  cases hw : write t w.data w.mode w.allowed with
  | error e => exact h
  | ok t' =>
    obtain ⟨c, _, hsnap⟩ := write_ok_snapshots t t' w.data w.mode w.allowed hw
    have : t' = ⟨t.snapshots ++ [⟨t.snapshots.length, opName w.mode, c⟩]⟩ := by
      cases t'
      simpa using hsnap
    rw [this]
    exact read_append t.snapshots _ k ds h

/-- Claim C1: snapshot immutability — for every versioned table and every
version number `k` at which a snapshot exists, reading the table at version
`k` after any sequence of later writes (overwrites and schema-evolving
appends included) returns data identical to what reading at version `k`
returned before those writes. -/
theorem snapshot_immutability (t : VersionedTable) (k : Nat) (ds : Dataset)
    (ws : List WriteReq) (h : read t (Option.some k) = Except.ok ds) :
    read (applyWrites t ws) (Option.some k) = Except.ok ds := by
  induction ws generalizing t with
  | nil => exact h
  | cons w ws ih => exact ih (applyWrite t w) (applyWrite_read t w k ds h)

/-- Witness for C1: a concrete table holding one snapshot, read at version 0
before and after a later overwrite and a later schema-evolving append. -/
theorem snapshot_immutability_witness :
    read (applyWrites
        ⟨[⟨0, "WRITE-OVERWRITE", ⟨["a"], [[("a", "1")]]⟩⟩]⟩
        [⟨⟨["a"], [[("a", "2")]]⟩, Mode.overwrite, false⟩,
         ⟨⟨["a", "b"], [[("a", "3"), ("b", "4")]]⟩, Mode.append, true⟩])
      (Option.some 0) = Except.ok ⟨["a"], [[("a", "1")]]⟩ :=
  snapshot_immutability ⟨[⟨0, "WRITE-OVERWRITE", ⟨["a"], [[("a", "1")]]⟩⟩]⟩ 0
    ⟨["a"], [[("a", "1")]]⟩ _ (by decide)

theorem writeContent_overwrite_rows (t : VersionedTable) (data : Dataset)
    (allowed : Bool) (c : Dataset)
    (h : writeContent t data Mode.overwrite allowed = Except.ok c) :
    c.rows = data.rows := by
  cases hc : curData t with
  | none =>
    simp only [writeContent, hc] at h
    cases h
    rfl
  | some cur =>
    simp only [writeContent, hc] at h
    split_ifs at h <;> cases h <;> rfl

/-- Claim C5: a write with `mode=overwrite` replaces the table's logical
content read at the latest version, yet still appends a new numbered snapshot
to the history, and every previously committed version remains readable
unchanged afterwards. -/
theorem overwrite_preserves_history (t t' : VersionedTable) (data : Dataset)
    (allowed : Bool) (h : write t data Mode.overwrite allowed = Except.ok t') :
    (∃ snap, history t' = history t ++ [snap] ∧
        snap.version = (history t).length ∧ snap.data.rows = data.rows) ∧
    (∃ ds, read t' Option.none = Except.ok ds ∧ ds.rows = data.rows) ∧
    (∀ k ds, read t (Option.some k) = Except.ok ds →
        read t' (Option.some k) = Except.ok ds) := by
  obtain ⟨c, hc, hsnap⟩ := write_ok_snapshots t t' data Mode.overwrite allowed h
  have hrows : c.rows = data.rows := writeContent_overwrite_rows t data allowed c hc
  refine ⟨⟨⟨t.snapshots.length, opName Mode.overwrite, c⟩, ?_, rfl, hrows⟩,
      ⟨c, ?_, hrows⟩, ?_⟩
  · simpa [history] using hsnap
  · simp only [read, hsnap, List.getLast?_concat]
  · intro k ds hread
    have ht' : t' = ⟨t.snapshots ++ [⟨t.snapshots.length, opName Mode.overwrite, c⟩]⟩ := by
      cases t'
      simpa using hsnap
    rw [ht']
    exact read_append t.snapshots _ k ds hread

/-- Initial dataset of the spec's schema-evolution scenario: three rows,
no column `x`. -/
def scenD0 : Dataset :=
  ⟨["id", "price"],
   [[("id", "1"), ("price", "100")],
    [("id", "2"), ("price", "150")],
    [("id", "3"), ("price", "200")]]⟩

/-- Appended dataset of the scenario: two rows carrying the new column `x`. -/
def scenD1 : Dataset :=
  ⟨["id", "price", "x"],
   [[("id", "4"), ("price", "250"), ("x", "55")],
    [("id", "5"), ("price", "300"), ("x", "57")]]⟩

/-- The table after the scenario's two writes: an initial write of three rows
(snapshot v0) and a schema-evolving append of two rows (snapshot v1). -/
def scenT : VersionedTable :=
  applyWrite (applyWrite ⟨[]⟩ ⟨scenD0, Mode.overwrite, false⟩)
    ⟨scenD1, Mode.append, true⟩

/-- Logical content of the scenario's snapshot v1: the merged schema with
column `x`, over all five rows. -/
def scenV1 : Dataset := ⟨["id", "price", "x"], scenD0.rows ++ scenD1.rows⟩

/-- Claim C7: schema-evolution scenario — after writing 3 rows (snapshot v0)
and appending 2 rows with an additively evolved schema adding column `x`
(snapshot v1), reading at version 0 returns exactly 3 rows without column
`x`, and reading at version 1 returns 5 rows with column `x`, null for the 3
original rows. -/
theorem schema_evolution_scenario :
    read scenT (Option.some 0) = Except.ok scenD0 ∧
    scenD0.rows.length = 3 ∧
    scenD0.schema.contains "x" = false ∧
    (∀ r ∈ scenD0.rows, getCell r "x" = Option.none) ∧
    read scenT (Option.some 1) = Except.ok scenV1 ∧
    scenV1.rows.length = 5 ∧
    scenV1.schema.contains "x" = true ∧
    (∀ r ∈ scenV1.rows.take 3, getCell r "x" = Option.none) ∧
    (∀ r ∈ scenV1.rows.drop 3, getCell r "x" ≠ Option.none) := by
  decide

/-- First dataset for the C5 witness table. -/
def dW0 : Dataset := ⟨["a"], [[("a", "1")]]⟩

/-- Dataset written by the C5 witness overwrite. -/
def dW1 : Dataset := ⟨["a"], [[("a", "2")], [("a", "3")]]⟩

/-- C5 witness table holding one committed snapshot. -/
def tW : VersionedTable := ⟨[⟨0, "WRITE-OVERWRITE", dW0⟩]⟩

/-- C5 witness table after the overwrite of `dW1`. -/
def tWafter : VersionedTable :=
  ⟨[⟨0, "WRITE-OVERWRITE", dW0⟩, ⟨1, "WRITE-OVERWRITE", dW1⟩]⟩

/-- Witness for C5: after a concrete overwrite, the previously committed
version 0 is still readable unchanged. -/
theorem overwrite_preserves_history_witness :
    read tWafter (Option.some 0) = Except.ok dW0 :=
  (overwrite_preserves_history tW tWafter dW1 false (by decide)).2.2 0 dW0
    (by decide)

/-! ## Experiment run tracker -/

/-- Modelled from the spec: a run owns a write-once parameter map, an
append-only metric log and a set of artifact references; the MLflow tracker
that stores them is external to the repository. -/
structure Run where
  runId : String
  params : List (String × String)
  metrics : List (String × Int)
  artifacts : List String
  deriving DecidableEq

/-- Modelled from the spec: errors of the run-tracker client
(`UnknownRun` covers addressing a missing run through its string handle). -/
inductive TrackErr where
  | DuplicateParam
  | UnknownRun
  deriving DecidableEq

/-- Whether a parameter key is already set in this run. -/
def paramSet (r : Run) (key : String) : Bool :=
  r.params.any (fun p => p.1 == key)

/-- Modelled from the spec: `log_param(key, value)` fails with
`DuplicateParam` if the key is already set in this run. -/
def logParam (r : Run) (key value : String) : Except TrackErr Run :=
  if paramSet r key then Except.error TrackErr.DuplicateParam
  else Except.ok ⟨r.runId, r.params ++ [(key, value)], r.metrics, r.artifacts⟩

/-- Modelled from the spec: `log_metric(key, value)` always appends, never
fails on repeat keys. -/
def logMetric (r : Run) (key : String) (value : Int) : Run :=
  ⟨r.runId, r.params, r.metrics ++ [(key, value)], r.artifacts⟩

/-- All values logged for a metric key, in logging order. -/
def metricValues (r : Run) (key : String) : List Int :=
  (r.metrics.filter (fun p => p.1 == key)).map (·.2)

/-- Claim C3: within a run, `log_param` with a key already set fails with
`DuplicateParam`, while `log_metric` with a repeated key always succeeds,
appending the new value after every previously logged value for that key, so
that all logged values remain retrievable. -/
theorem run_tracker_logging (r : Run) (key value : String) (m : Int) :
    (paramSet r key = true →
        logParam r key value = Except.error TrackErr.DuplicateParam) ∧
    metricValues (logMetric r key m) key = metricValues r key ++ [m] := by
  constructor
  · intro h
    simp [logParam, h]
  · simp [logMetric, metricValues, List.filter_append]

/-- Witness for C3: in a concrete run that has already set parameter `lr`
and metric `rmse`, re-logging the parameter fails and re-logging the metric
keeps both values. -/
theorem run_tracker_logging_witness :
    logParam ⟨"r1", [("lr", "0.1")], [("rmse", 5)], []⟩ "lr" "0.2" =
      Except.error TrackErr.DuplicateParam ∧
    metricValues (logMetric ⟨"r1", [("lr", "0.1")], [("rmse", 5)], []⟩ "rmse" 4)
      "rmse" = [5, 4] :=
  ⟨(run_tracker_logging ⟨"r1", [("lr", "0.1")], [("rmse", 5)], []⟩ "lr" "0.2" 4).1
      (by decide),
   (run_tracker_logging ⟨"r1", [("lr", "0.1")], [("rmse", 5)], []⟩ "rmse" "x" 4).2⟩

/-! ## Model registry -/

/-- Modelled from the spec: lifecycle stage of a model version, a tagged enum
with exactly the four platform stages. -/
inductive Stage where
  | none
  | staging
  | production
  | archived
  deriving DecidableEq

/-- Modelled from the spec: a model version references a source run's
artifact and carries a monotonically increasing version number, a stage and
a description. -/
structure ModelVersion where
  version : Nat
  source : String
  stage : Stage
  descr : String
  deriving DecidableEq

/-- Modelled from the spec: a registered model is a named, ordered sequence
of model versions, with a model-level description writable through
`update_description`. -/
structure RegisteredModel where
  name : String
  versions : List ModelVersion
  descr : String
  deriving DecidableEq

/-- Modelled from the spec: the registry catalog, keyed by model name.  The
MLflow registry service itself is external to the repository. -/
abbrev Registry := List RegisteredModel

/-- Modelled from the spec: errors of the registry client. -/
inductive RegErr where
  | UnknownModel
  | UnknownVersion
  | ModelHasActiveVersions
  deriving DecidableEq

/-- Whether a model name exists in the registry. -/
def registered : Registry → String → Bool
  | [], _ => false
  | m :: rest, name => (m.name == name) || registered rest name

/-- The ordered version sequence recorded for a model name. -/
def versionsOf : Registry → String → List ModelVersion
  | [], _ => []
  | m :: rest, name => if m.name == name then m.versions else versionsOf rest name

/-- Modelled from the spec: `search_versions(name)` returns the sequence of
model versions registered under the name. -/
def searchVersions (reg : Registry) (name : String) : List ModelVersion :=
  versionsOf reg name

/-- Modelled from the spec: `register_model(run_artifact_uri, name)` creates
`name` if absent and assigns version `1 + count of existing versions` for
that name; returns the updated registry and the new model version. -/
def registerModel : Registry → String → String → Registry × ModelVersion
  | [], uri, name =>
    ([⟨name, [⟨1, uri, Stage.none, ""⟩], ""⟩], ⟨1, uri, Stage.none, ""⟩)
  | m :: rest, uri, name =>
    if m.name == name then
      (⟨m.name, m.versions ++ [⟨m.versions.length + 1, uri, Stage.none, ""⟩],
         m.descr⟩ :: rest,
       ⟨m.versions.length + 1, uri, Stage.none, ""⟩)
    else
      (m :: (registerModel rest uri name).1, (registerModel rest uri name).2)

/-- Whether a version number exists in a version sequence. -/
def hasVersion (vs : List ModelVersion) (ver : Nat) : Bool :=
  vs.any (fun v => v.version == ver)

/-- Set the stage of the version numbered `ver` in a version sequence. -/
def setStage (vs : List ModelVersion) (ver : Nat) (target : Stage) :
    List ModelVersion :=
  vs.map (fun v => if v.version == ver then ⟨v.version, v.source, target, v.descr⟩ else v)

/-- Modelled from the spec: `transition_stage(name, version, target_stage)`
fails with `UnknownModel` or `UnknownVersion` if not found, and is otherwise
unconditional (no approval workflow); the target stage is validated as one of
the four `Stage` values by type. -/
def transitionStage : Registry → String → Nat → Stage → Except RegErr Registry
  | [], _, _, _ => Except.error RegErr.UnknownModel
  | m :: rest, name, ver, target =>
    if m.name == name then
      if hasVersion m.versions ver then
        Except.ok (⟨m.name, setStage m.versions ver target, m.descr⟩ :: rest)
      else Except.error RegErr.UnknownVersion
    else
      match transitionStage rest name ver target with
      | Except.ok reg => Except.ok (m :: reg)
      | Except.error e => Except.error e

/-! ### Registry lemmas -/

theorem registerModel_version (reg : Registry) (uri name : String) :
    (registerModel reg uri name).2.version = (versionsOf reg name).length + 1 := by
  induction reg with
  | nil => rfl
  | cons m rest ih =>
    by_cases hm : m.name == name
    · simp [registerModel, versionsOf, hm]
    · simp only [registerModel, versionsOf, hm, if_false, Bool.false_eq_true]
      simpa using ih

theorem versionsOf_registerModel (reg : Registry) (uri name : String) :
    versionsOf (registerModel reg uri name).1 name =
      versionsOf reg name ++ [(registerModel reg uri name).2] := by
  induction reg with
  | nil => simp [registerModel, versionsOf]
  | cons m rest ih =>
    by_cases hm : m.name == name
    · simp [registerModel, versionsOf, hm]
    · simp only [registerModel, versionsOf, hm, if_false, Bool.false_eq_true]
      simpa using ih

theorem registered_registerModel (reg : Registry) (uri name : String) :
    registered (registerModel reg uri name).1 name = true := by
  induction reg with
  | nil => simp [registerModel, registered]
  | cons m rest ih =>
    by_cases hm : m.name == name
    · simp [registerModel, registered, hm]
    · simp only [registerModel, registered, hm, if_false, Bool.false_eq_true]
      simpa [registered, hm] using ih

theorem unregistered_versionsOf (reg : Registry) (name : String)
    (h : registered reg name = false) : versionsOf reg name = [] := by
  induction reg with
  | nil => rfl
  | cons m rest ih =>
    simp only [registered, Bool.or_eq_false_iff] at h
    simp [versionsOf, h.1, ih h.2]

/-- Claim C2: `register_model` creates the named model if absent and assigns
the new model version the number `1 + count of existing versions` for that
name; in particular the first registration under a fresh name yields version
1 and the second yields version 2, in that order. -/
theorem register_model_versions (reg : Registry) (u₁ u₂ name : String) :
    (registerModel reg u₁ name).2.version = (versionsOf reg name).length + 1 ∧
    registered (registerModel reg u₁ name).1 name = true ∧
    (registered reg name = false →
      (registerModel reg u₁ name).2.version = 1 ∧
      (registerModel (registerModel reg u₁ name).1 u₂ name).2.version = 2) := by
  refine ⟨registerModel_version reg u₁ name, registered_registerModel reg u₁ name, ?_⟩
  intro h
  have h0 : versionsOf reg name = [] := unregistered_versionsOf reg name h
  constructor
  · rw [registerModel_version reg u₁ name, h0]
    rfl
  · rw [registerModel_version (registerModel reg u₁ name).1 u₂ name,
      versionsOf_registerModel reg u₁ name, h0]
    rfl

/-- Witness for C2: registering a fresh name twice in an empty registry
yields versions 1 then 2. -/
theorem register_model_versions_witness :
    (registerModel [] "runs:/a/model" "m").2.version = 1 ∧
    (registerModel (registerModel [] "runs:/a/model" "m").1 "runs:/b/model"
      "m").2.version = 2 :=
  (register_model_versions [] "runs:/a/model" "runs:/b/model" "m").2.2 (by decide)

theorem transitionStage_unknown_model (reg : Registry) (name : String)
    (ver : Nat) (target : Stage) (h : registered reg name = false) :
    transitionStage reg name ver target = Except.error RegErr.UnknownModel := by
  induction reg with
  | nil => rfl
  | cons m rest ih =>
    simp only [registered, Bool.or_eq_false_iff] at h
    simp [transitionStage, h.1, ih h.2]

theorem transitionStage_unknown_version (reg : Registry) (name : String)
    (ver : Nat) (target : Stage) (h1 : registered reg name = true)
    (h2 : hasVersion (versionsOf reg name) ver = false) :
    transitionStage reg name ver target = Except.error RegErr.UnknownVersion := by
  induction reg with
  | nil => cases h1
  | cons m rest ih =>
    by_cases hm : m.name == name
    · have : hasVersion m.versions ver = false := by simpa [versionsOf, hm] using h2
      simp [transitionStage, hm, this]
    · have h1' : registered rest name = true := by
        simpa [registered, hm] using h1
      have h2' : hasVersion (versionsOf rest name) ver = false := by
        simpa [versionsOf, hm] using h2
      simp [transitionStage, hm, ih h1' h2']

theorem transitionStage_ok (reg : Registry) (name : String) (ver : Nat)
    (target : Stage) (h2 : hasVersion (versionsOf reg name) ver = true) :
    ∃ reg', transitionStage reg name ver target = Except.ok reg' ∧
      versionsOf reg' name = setStage (versionsOf reg name) ver target := by
  induction reg with
  | nil => simp [versionsOf, hasVersion] at h2
  | cons m rest ih =>
    by_cases hm : m.name == name
    · have hv : hasVersion m.versions ver = true := by
        simpa [versionsOf, hm] using h2
      refine ⟨⟨m.name, setStage m.versions ver target, m.descr⟩ :: rest, ?_, ?_⟩
      · simp [transitionStage, hm, hv]
      · simp [versionsOf, hm]
    · have h2' : hasVersion (versionsOf rest name) ver = true := by
        simpa [versionsOf, hm] using h2
      obtain ⟨reg', hr, hv⟩ := ih h2'
      exact ⟨m :: reg', by simp [transitionStage, hm, hr],
        by simpa [versionsOf, hm] using hv⟩

theorem setStage_stage (vs : List ModelVersion) (ver : Nat) (target : Stage) :
    ∀ v ∈ setStage vs ver target, v.version = ver → v.stage = target := by
  intro v hv hver
  simp only [setStage, List.mem_map] at hv
  obtain ⟨w, hw, heq⟩ := hv
  by_cases h : w.version == ver
  · rw [if_pos h] at heq
    rw [← heq]
  · rw [if_neg h] at heq
    rw [← heq] at hver
    exact absurd (beq_iff_eq.mpr hver) h

theorem setStage_mem (vs : List ModelVersion) (ver : Nat) (target : Stage)
    (h : hasVersion vs ver = true) :
    ∃ v ∈ setStage vs ver target, v.version = ver ∧ v.stage = target := by
  simp only [hasVersion, List.any_eq_true] at h
  obtain ⟨w, hw, hwv⟩ := h
  refine ⟨⟨w.version, w.source, target, w.descr⟩, ?_, beq_iff_eq.mp hwv, rfl⟩
  simp only [setStage, List.mem_map]
  exact ⟨w, hw, by rw [if_pos hwv]⟩

/-- Claim C4: `transition_stage` contract — the target stage is one of the
four platform stages; the call fails with `UnknownModel` when the name is
not registered, with `UnknownVersion` when the version does not exist for
that name, and otherwise succeeds unconditionally, `search_versions` on the
result holding an entry for that version that carries the target stage (and
no entry for it with any other stage). -/
theorem transition_stage_contract (reg : Registry) (name : String) (ver : Nat)
    (target : Stage) :
    (target = Stage.none ∨ target = Stage.staging ∨ target = Stage.production ∨
      target = Stage.archived) ∧
    (registered reg name = false →
      transitionStage reg name ver target = Except.error RegErr.UnknownModel) ∧
    (registered reg name = true →
      hasVersion (searchVersions reg name) ver = false →
      transitionStage reg name ver target = Except.error RegErr.UnknownVersion) ∧
    (hasVersion (searchVersions reg name) ver = true →
      ∃ reg', transitionStage reg name ver target = Except.ok reg' ∧
        (∃ v ∈ searchVersions reg' name, v.version = ver ∧ v.stage = target) ∧
        ∀ v ∈ searchVersions reg' name, v.version = ver → v.stage = target) := by
  refine ⟨?_, transitionStage_unknown_model reg name ver target,
      transitionStage_unknown_version reg name ver target, ?_⟩
  · cases target
    · exact Or.inl rfl
    · exact Or.inr (Or.inl rfl)
    · exact Or.inr (Or.inr (Or.inl rfl))
    · exact Or.inr (Or.inr (Or.inr rfl))
  · intro h2
    obtain ⟨reg', hr, hv⟩ := transitionStage_ok reg name ver target h2
    refine ⟨reg', hr, ?_, ?_⟩
    · rw [searchVersions, hv]
      exact setStage_mem (versionsOf reg name) ver target h2
    · intro v hvmem hver
      rw [searchVersions, hv] at hvmem
      exact setStage_stage (versionsOf reg name) ver target v hvmem hver

/-- Registry used by the C4 and C6 witnesses: one model `m` whose single
version 1 is `Archived`. -/
def regW : Registry := [⟨"m", [⟨1, "runs:/a/model", Stage.archived, ""⟩], ""⟩]

/-- Witness for C4: in a concrete registry, transitioning an unknown name
fails with `UnknownModel`, an unknown version fails with `UnknownVersion`,
and a present version succeeds with an entry for that version carrying the
new stage visible in the result. -/
theorem transition_stage_contract_witness :
    transitionStage regW "other" 1 Stage.staging =
      Except.error RegErr.UnknownModel ∧
    transitionStage regW "m" 7 Stage.staging =
      Except.error RegErr.UnknownVersion ∧
    ∃ reg', transitionStage regW "m" 1 Stage.staging = Except.ok reg' ∧
      (∃ v ∈ searchVersions reg' "m", v.version = 1 ∧ v.stage = Stage.staging) ∧
      ∀ v ∈ searchVersions reg' "m", v.version = 1 → v.stage = Stage.staging :=
  ⟨(transition_stage_contract regW "other" 1 Stage.staging).2.1 (by decide),
   (transition_stage_contract regW "m" 7 Stage.staging).2.2.1 (by decide) (by decide),
   (transition_stage_contract regW "m" 1 Stage.staging).2.2.2 (by decide)⟩

theorem setStage_noop (vs : List ModelVersion) (ver : Nat) (s : Stage)
    (h : ∀ v ∈ vs, v.version = ver → v.stage = s) :
    setStage vs ver s = vs := by
  induction vs with
  | nil => rfl
  | cons v rest ih =>
    have ht : setStage rest ver s = rest :=
      ih (fun w hw => h w (List.mem_cons_of_mem v hw))
    simp only [setStage, List.map_cons]
    congr 1
    by_cases hv : v.version == ver
    · have hs : v.stage = s := h v (List.mem_cons_self v rest) (beq_iff_eq.mp hv)
      rw [if_pos hv, ← hs]
    · rw [if_neg hv]

theorem transition_same_stage_noop (reg : Registry) (name : String) (ver : Nat)
    (s : Stage) (h1 : hasVersion (versionsOf reg name) ver = true)
    (h : ∀ v ∈ versionsOf reg name, v.version = ver → v.stage = s) :
    transitionStage reg name ver s = Except.ok reg := by
  induction reg with
  | nil => simp [versionsOf, hasVersion] at h1
  | cons m rest ih =>
    by_cases hm : m.name == name
    · have hv : hasVersion m.versions ver = true := by
        simpa [versionsOf, hm] using h1
      have hnoop : setStage m.versions ver s = m.versions :=
        setStage_noop m.versions ver s (by simpa [versionsOf, hm] using h)
      simp [transitionStage, hm, hv, hnoop]
    · have h1' : hasVersion (versionsOf rest name) ver = true := by
        simpa [versionsOf, hm] using h1
      have h' : ∀ v ∈ versionsOf rest name, v.version = ver → v.stage = s := by
        simpa [versionsOf, hm] using h
      simp [transitionStage, hm, ih h1' h']

/-- Claim C6: stage-transition idempotence and permissiveness — transitioning
a version to the stage it already has leaves the registry unchanged, and a
transition to any of the four stages succeeds whenever the version exists, so
an `Archived` version can be moved back to `Staging` and no stage is
terminal. -/
theorem stage_transition_idempotent_permissive (reg : Registry) (name : String)
    (ver : Nat) (s target : Stage) :
    (hasVersion (versionsOf reg name) ver = true →
      (∀ v ∈ versionsOf reg name, v.version = ver → v.stage = s) →
      transitionStage reg name ver s = Except.ok reg) ∧
    (hasVersion (versionsOf reg name) ver = true →
      ∃ reg', transitionStage reg name ver target = Except.ok reg') := by
  refine ⟨transition_same_stage_noop reg name ver s, ?_⟩
  intro h2
  obtain ⟨reg', hr, _⟩ := transitionStage_ok reg name ver target h2
  exact ⟨reg', hr⟩

/-- Witness for C6: re-asserting the `Archived` stage of the concrete
registry's only version is a no-op, and the archived version can still be
transitioned back to `Staging`. -/
theorem stage_transition_idempotent_permissive_witness :
    transitionStage regW "m" 1 Stage.archived = Except.ok regW ∧
    ∃ reg', transitionStage regW "m" 1 Stage.staging = Except.ok reg' :=
  ⟨(stage_transition_idempotent_permissive regW "m" 1 Stage.archived
      Stage.archived).1 (by decide) (by decide),
   (stage_transition_idempotent_permissive regW "m" 1 Stage.archived
      Stage.staging).2 (by decide)⟩

/-- Maximum version number among a sequence of model versions, as computed by
the notebook's `max` over the `search_model_versions` results. -/
def maxVersion (vs : List ModelVersion) : Nat :=
  vs.foldl (fun acc v => Nat.max acc v.version) 0

/-- The version numbers of a sequence registered in order are exactly
`1, 2, …, n` — the invariant `register_model` maintains. -/
def ConsecFromOne (vs : List ModelVersion) : Prop :=
  vs.map (fun v => v.version) = List.range' 1 vs.length

theorem foldl_max_range (n : Nat) :
    List.foldl Nat.max 0 (List.range' 1 n) = n := by
  induction n with
  | zero => rfl
  | succ n ih =>
    rw [List.range'_1_concat, List.foldl_append, ih]
    simp [Nat.max_eq_right (Nat.le_add_left n 1), Nat.add_comm]

/-- Claim C10: latest-version selection — starting from a registry whose
versions for `name` are numbered consecutively from 1, the maximum version
number over `search_versions(name)` right after a registration equals the
version just assigned, which is also the last (most recent) entry; the
consecutive numbering is preserved, so the maximum always names the most
recently registered version. -/
theorem latest_version_selection (reg : Registry) (uri name : String)
    (h : ConsecFromOne (versionsOf reg name)) :
    maxVersion (searchVersions (registerModel reg uri name).1 name) =
      (registerModel reg uri name).2.version ∧
    (searchVersions (registerModel reg uri name).1 name).getLast? =
      Option.some (registerModel reg uri name).2 ∧
    ConsecFromOne (versionsOf (registerModel reg uri name).1 name) := by
  have hver := registerModel_version reg uri name
  have hvs := versionsOf_registerModel reg uri name
  have hmap : (versionsOf (registerModel reg uri name).1 name).map
      (fun v => v.version) =
      List.range' 1 ((versionsOf reg name).length + 1) := by
    rw [hvs, List.map_append, h, List.range'_1_concat]
    simp [hver, Nat.add_comm]
  refine ⟨?_, ?_, ?_⟩
  · have : maxVersion (versionsOf (registerModel reg uri name).1 name) =
        List.foldl Nat.max 0 ((versionsOf (registerModel reg uri name).1 name).map
          (fun v => v.version)) := by
      rw [List.foldl_map]
      rfl
    rw [searchVersions, this, hmap, foldl_max_range, hver]
  · rw [searchVersions, hvs, List.getLast?_concat]
  · rw [ConsecFromOne, hmap, hvs]
    simp

/-- Witness for C10: registering into an empty registry (whose version list
for `m` is trivially consecutive) makes version 1 both the maximum and the
most recent entry. -/
theorem latest_version_selection_witness :
    maxVersion (searchVersions (registerModel [] "runs:/a/model" "m").1 "m") =
      (registerModel [] "runs:/a/model" "m").2.version ∧
    (searchVersions (registerModel [] "runs:/a/model" "m").1 "m").getLast? =
      Option.some (registerModel [] "runs:/a/model" "m").2 ∧
    ConsecFromOne (versionsOf (registerModel [] "runs:/a/model" "m").1 "m") :=
  latest_version_selection [] "runs:/a/model" "m" rfl

/-! ## Train/test split of the lab notebook -/

/-- Modelled from the spec: the fixed random seed the notebook passes to
`randomSplit([.8, .2], seed=42)`. -/
def splitSeed : Nat := 42

/-- Modelled from the spec: the platform's `randomSplit` is external and is
modelled as an arbitrary function of the seed and the input dataset; the
notebook always invokes it with the fixed seed. -/
def trainTestSplit (split : Nat → List Row → List Row × List Row)
    (d : List Row) : List Row × List Row :=
  split splitSeed d

/-- Claim C9: deterministic train/test split — the 80/20 split is invoked
with the fixed seed 42, so for any split behavior of the platform, two
executions over the same input dataset produce identical train and test
datasets. -/
theorem deterministic_split (split : Nat → List Row → List Row × List Row)
    (d₁ d₂ : List Row) (h : d₁ = d₂) :
    trainTestSplit split d₁ = trainTestSplit split d₂ ∧
    trainTestSplit split d₁ = split 42 d₁ := by
  constructor
  · rw [h]
  · rfl

/-- Witness for C9: a concrete split function applied twice to the same
one-row dataset yields the same result, produced with seed 42. -/
theorem deterministic_split_witness :
    trainTestSplit (fun _ d => (d, [])) [[("id", "1")]] =
      trainTestSplit (fun _ d => (d, [])) [[("id", "1")]] ∧
    trainTestSplit (fun _ d => (d, [])) [[("id", "1")]] =
      (fun (_ : Nat) (d : List Row) => (d, ([] : List Row))) 42 [[("id", "1")]] :=
  deterministic_split (fun _ d => (d, [])) [[("id", "1")]] [[("id", "1")]] rfl

/-! ## Remaining client operations -/

/-- Modelled from the spec: `log_artifact(path_or_object, artifact_path)`
records an artifact reference under the run; it has no error in the
taxonomy. -/
def logArtifact (r : Run) (artifact : String) : Run :=
  ⟨r.runId, r.params, r.metrics, r.artifacts ++ [artifact]⟩

/-- Modelled from the spec: run IDs are opaque unique strings assigned at
start; the model draws them from a counter over the tracked runs. -/
def freshRunId (rs : List Run) : String :=
  "run-" ++ toString rs.length

/-- Modelled from the spec: `start_run(name)` opens a fresh, empty run under
a newly assigned run ID; the spec's `Run` owns no display name, so only the
generated ID enters the tracked state. -/
def startRun (rs : List Run) : List Run :=
  rs ++ [⟨freshRunId rs, [], [], []⟩]

/-- Modelled from the spec: `search_runs(filter_expression)` with the
parameter-equality filters the notebook issues (for example
`params.data_version = '1'`); a read-only query over the tracked runs. -/
def searchRuns (rs : List Run) (key value : String) : List Run :=
  rs.filter (fun r => r.params.contains (key, value))

/-- Set the description of the version numbered `ver` in a version
sequence. -/
def setDescr (vs : List ModelVersion) (ver : Nat) (text : String) :
    List ModelVersion :=
  vs.map (fun v => if v.version == ver then ⟨v.version, v.source, v.stage, text⟩ else v)

/-- Modelled from the spec: `update_description(name, version_or_model_level,
text)` — `Option.some ver` updates that version's description,
`Option.none` the model-level one; fails with `UnknownModel` or
`UnknownVersion` when the target is missing. -/
def updateDescription : Registry → String → Option Nat → String →
    Except RegErr Registry
  | [], _, _, _ => Except.error RegErr.UnknownModel
  | m :: rest, name, ver, text =>
    if m.name == name then
      match ver with
      | Option.none => Except.ok (⟨m.name, m.versions, text⟩ :: rest)
      | Option.some v =>
        if hasVersion m.versions v then
          Except.ok (⟨m.name, setDescr m.versions v text, m.descr⟩ :: rest)
        else Except.error RegErr.UnknownVersion
    else
      match updateDescription rest name ver text with
      | Except.ok reg => Except.ok (m :: reg)
      | Except.error e => Except.error e

/-- Whether some version of the sequence is still active, that is, not yet
`Archived`. -/
def hasActive (vs : List ModelVersion) : Bool :=
  vs.any (fun v => !(v.stage == Stage.archived))

/-- Modelled from the spec: `delete_model(name)` under the restrictive policy
the spec offers (the one the notebook follows by archiving both versions
first): it fails with `ModelHasActiveVersions` unless every version of the
model is archived, and otherwise removes the model from the catalog. -/
def deleteModel : Registry → String → Except RegErr Registry
  | [], _ => Except.error RegErr.UnknownModel
  | m :: rest, name =>
    if m.name == name then
      if hasActive m.versions then Except.error RegErr.ModelHasActiveVersions
      else Except.ok rest
    else
      match deleteModel rest name with
      | Except.ok reg => Except.ok (m :: reg)
      | Except.error e => Except.error e

/-! ## Combined system: versioned store, run tracker, model registry -/

/-- Modelled from the spec: the combined observable state of the three
collaborators — the path-addressed tables, the tracked runs and the model
registry. -/
structure SysState where
  tables : List (String × VersionedTable)
  runs : List Run
  registry : Registry
  deriving DecidableEq

/-- Error of any of the three clients, tagged by component. -/
inductive SysErr where
  | store (e : StoreErr)
  | track (e : TrackErr)
  | registry (e : RegErr)
  deriving DecidableEq

/-- The table stored at a path, an absent path being the empty table. -/
def lookupTable (ts : List (String × VersionedTable)) (path : String) :
    VersionedTable :=
  (((ts.find? (fun p => p.1 == path)).map (·.2)).getD ⟨[]⟩)

/-- Store a table at a path, inserting the path if absent. -/
def setTable : List (String × VersionedTable) → String → VersionedTable →
    List (String × VersionedTable)
  | [], path, t => [(path, t)]
  | p :: rest, path, t =>
    if p.1 == path then (path, t) :: rest else p :: setTable rest path t

/-- Apply a fallible update to the run addressed by its run ID. -/
def updateRun : List Run → String → (Run → Except TrackErr Run) →
    Except TrackErr (List Run)
  | [], _, _ => Except.error TrackErr.UnknownRun
  | r :: rest, rid, f =>
    if r.runId == rid then
      match f r with
      | Except.ok r' => Except.ok (r' :: rest)
      | Except.error e => Except.error e
    else
      match updateRun rest rid f with
      | Except.ok rs => Except.ok (r :: rs)
      | Except.error e => Except.error e

/-- Modelled from the spec: the full operation surface of the three clients
— `write`, `read` and `history` of the versioned store; `start_run`,
`log_param`, `log_metric`, `log_artifact` and `search_runs` of the run
tracker; `register_model`, `transition_stage`, `update_description`,
`search_versions` and `delete_model` of the registry. -/
inductive Op where
  | writeOp (path : String) (data : Dataset) (mode : Mode) (allowed : Bool)
  | readOp (path : String) (version : Option Nat)
  | historyOp (path : String)
  | startRunOp (name : String)
  | logParamOp (rid key value : String)
  | logMetricOp (rid key : String) (value : Int)
  | logArtifactOp (rid artifact : String)
  | searchRunsOp (key value : String)
  | registerOp (uri name : String)
  | transitionOp (name : String) (ver : Nat) (target : Stage)
  | updateDescriptionOp (name : String) (ver : Option Nat) (text : String)
  | searchVersionsOp (name : String)
  | deleteModelOp (name : String)

/-- Modelled from the spec: single-threaded, synchronous execution of one
operation — a blocking request that either returns the fully updated state or
an error from the taxonomy, with no intermediate state.  Queries (`read`,
`history`, `search_runs`, `search_versions`) return their answer to the
caller and leave the state unchanged; `read` may still fail with
`VersionNotFound`. -/
def exec (s : SysState) : Op → Except SysErr SysState
  | Op.writeOp path data mode allowed =>
    match write (lookupTable s.tables path) data mode allowed with
    | Except.ok t => Except.ok ⟨setTable s.tables path t, s.runs, s.registry⟩
    | Except.error e => Except.error (SysErr.store e)
  | Op.readOp path version =>
    match read (lookupTable s.tables path) version with
    | Except.ok _ => Except.ok s
    | Except.error e => Except.error (SysErr.store e)
  | Op.historyOp path =>
    match history (lookupTable s.tables path) with
    | _ => Except.ok s
  | Op.startRunOp _ => Except.ok ⟨s.tables, startRun s.runs, s.registry⟩
  | Op.logParamOp rid key value =>
    match updateRun s.runs rid (fun r => logParam r key value) with
    | Except.ok rs => Except.ok ⟨s.tables, rs, s.registry⟩
    | Except.error e => Except.error (SysErr.track e)
  | Op.logMetricOp rid key value =>
    match updateRun s.runs rid (fun r => Except.ok (logMetric r key value)) with
    | Except.ok rs => Except.ok ⟨s.tables, rs, s.registry⟩
    | Except.error e => Except.error (SysErr.track e)
  | Op.logArtifactOp rid artifact =>
    match updateRun s.runs rid (fun r => Except.ok (logArtifact r artifact)) with
    | Except.ok rs => Except.ok ⟨s.tables, rs, s.registry⟩
    | Except.error e => Except.error (SysErr.track e)
  | Op.searchRunsOp key value =>
    match searchRuns s.runs key value with
    | _ => Except.ok s
  | Op.registerOp uri name =>
    Except.ok ⟨s.tables, s.runs, (registerModel s.registry uri name).1⟩
  | Op.transitionOp name ver target =>
    match transitionStage s.registry name ver target with
    | Except.ok reg => Except.ok ⟨s.tables, s.runs, reg⟩
    | Except.error e => Except.error (SysErr.registry e)
  | Op.updateDescriptionOp name ver text =>
    match updateDescription s.registry name ver text with
    | Except.ok reg => Except.ok ⟨s.tables, s.runs, reg⟩
    | Except.error e => Except.error (SysErr.registry e)
  | Op.searchVersionsOp name =>
    match searchVersions s.registry name with
    | _ => Except.ok s
  | Op.deleteModelOp name =>
    match deleteModel s.registry name with
    | Except.ok reg => Except.ok ⟨s.tables, s.runs, reg⟩
    | Except.error e => Except.error (SysErr.registry e)

/-- Execute a sequence of operations; a failing operation reports its error
to the caller and the next operation proceeds from the unchanged state. -/
def execSeq : SysState → List Op → SysState
  | s, [] => s
  | s, op :: ops =>
    match exec s op with
    | Except.ok s' => execSeq s' ops
    | Except.error _ => execSeq s ops

/-- Claim C8: per-operation atomicity — every operation of the versioned
store, run tracker and registry clients either fully applies, the following
operation proceeding from the completely updated state, or fails with an
error from the taxonomy reported synchronously as the call's result, the
observable state being left unchanged; no retry or partial-failure outcome
exists. -/
theorem per_operation_atomicity (s : SysState) (op : Op) :
    (∃ s', exec s op = Except.ok s' ∧ execSeq s [op] = s') ∨
    (∃ e, exec s op = Except.error e ∧ execSeq s [op] = s) := by
  cases h : exec s op with
  | ok s' => exact Or.inl ⟨s', rfl, by simp [execSeq, h]⟩
  | error e => exact Or.inr ⟨e, rfl, by simp [execSeq, h]⟩

end MLLab
